import Mathlib

/-!
# Verification of the veux rendering front end (`src/veux/__init__.py`)

This file gives a shallow embedding of the configuration-layering and
visibility-resolution logic of the `veux` package and settles the frozen
claims about it.

The module under `src/` contains the render orchestrator (`render`), the
canvas factory (`_create_canvas`) and the serving entry point (`serve`).
The configuration merger (`veux.config.apply_config`) and the visibility
resolver (`veux.parser.sketch_show`) are imported from modules that are not
part of the excerpt, so those two operations are modelled from the spec
(§4.1 and §4.2); each such definition is marked `Modelled from the spec:`
in its doc comment.  Everything else is translated directly from the
Python source.
-/

set_option autoImplicit false
set_option linter.unnecessarySeqFocus false

namespace Veux

/-- Scalar (leaf) values of the settings tree: numbers, strings, booleans.
Numbers are modelled as rationals so that literals such as `1.5` are exact. -/
inductive LVal where
  | num (q : ℚ)
  | str (s : String)
  | boolv (b : Bool)
  deriving DecidableEq, Repr

/-- A settings value: either a leaf scalar or a section of named entries.
This is the shape of the Python nested-`dict` configuration (`Config`).
A section's entries are insertion ordered, as in a Python `dict`; a
well-formed section has no duplicate keys (see `WFv`). -/
inductive CVal where
  | leaf (v : LVal)
  | sec (es : List (String × CVal))
  deriving Repr

/-- The entry list of a section. -/
abbrev Entries : Type := List (String × CVal)

/-- First value stored under key `k`, if any. -/
def lookupE (k : String) : Entries → Option CVal
  | [] => none
  | (k', v) :: rest => if k' = k then some v else lookupE k rest

/-- Whether some entry has key `k`. -/
def keysMem (k : String) : Entries → Bool
  | [] => false
  | (k', _) :: rest => k' = k || keysMem k rest

/-- The source entries whose key does not occur in the destination, in
source order: these are appended by `merge` on sections. -/
def filterNew (d : Entries) : Entries → Entries
  | [] => []
  | (k, v) :: rest =>
      if keysMem k d then filterNew d rest else (k, v) :: filterNew d rest

mutual
/-- Modelled from the spec: `veux.config.apply_config` (ConfigMerger, §4.1)
is not part of the excerpt.  `merge d s` deep-merges the partial source `s`
into the destination `d`: for each key in the source, if both sides hold a
section the sections are merged recursively, otherwise the source value
replaces the destination's; destination-only keys are retained; source-only
keys are appended in source order. -/
def merge : CVal → CVal → CVal
  | .leaf _, s => s
  | .sec _, .leaf v => .leaf v
  | .sec d, .sec s => .sec (mergeE d s ++ filterNew d s)

/-- The destination entries of `merge` on sections: every destination entry
keeps its key; its value is merged with the source's value at that key when
the source has one. -/
def mergeE : Entries → Entries → Entries
  | [], _ => []
  | (k, v) :: rest, s =>
      (k, match lookupE k s with
          | some sv => merge v sv
          | none => v) :: mergeE rest s
end

/-- Modelled from the spec: the call convention of `veux.config.apply_config`
at its two call sites in `render` is `apply_config(source, destination)`. -/
def apply_config (src dst : CVal) : CVal := merge dst src

mutual
/-- Well-formedness of a settings value: every section, recursively, has
pairwise-distinct keys.  This is exactly the image of a Python nested
`dict`, which cannot hold duplicate keys. -/
def WFv : CVal → Bool
  | .leaf _ => true
  | .sec es => WFe es

/-- Well-formedness of section entries: no duplicate keys, values well formed. -/
def WFe : Entries → Bool
  | [] => true
  | (k, v) :: rest => !keysMem k rest && WFv v && WFe rest
end

/-- Value reached by following a path of section keys from the root. -/
def getPath : CVal → List String → Option CVal
  | c, [] => some c
  | .leaf _, _ :: _ => none
  | .sec es, k :: p =>
      match lookupE k es with
      | some v => getPath v p
      | none => none

/-- The source `s` leaves the path `p` untouched: following `p` inside `s`
falls off at a missing section key (strictly before reaching a leaf of `s`
or the end of `p`).  A merge with source `s` cannot affect such a path. -/
def Untouched : CVal → List String → Prop
  | _, [] => False
  | .leaf _, _ :: _ => False
  | .sec es, k :: p =>
      match lookupE k es with
      | some v => Untouched v p
      | none => True

/-- Update the first entry with key `k` to `v`, appending a new entry if the
key is absent.  Models Python `d[k] = v`. -/
def setKeyE (k : String) (v : CVal) : Entries → Entries
  | [] => [(k, v)]
  | (k', v') :: rest =>
      if k' = k then (k', v) :: rest else (k', v') :: setKeyE k v rest

/-- Set `c[k₁][k₂] = v` (update-or-insert at both levels), modelling the
Python statement `config["artist_config"]["vertical"] = vertical` in
`render`.  If `c` or `c[k₁]` is a leaf it is replaced by a section, which
never happens on the paths `render` exercises (`Config()` provides the
`artist_config` section). -/
def setIn2 (c : CVal) (k₁ k₂ : String) (v : CVal) : CVal :=
  let inner : Entries :=
    match c with
    | .sec es =>
        match lookupE k₁ es with
        | some (.sec es₁) => es₁
        | _ => []
    | .leaf _ => []
  match c with
  | .sec es => .sec (setKeyE k₁ (.sec (setKeyE k₂ v inner)) es)
  | .leaf _ => .sec [(k₁, .sec (setKeyE k₂ v []))]

/-- The configuration set-up phase of `render` (source lines 185–192):
start from the defaults `Config()`, merge the model-embedded
`"RendererConfiguration"` section when present, write the `vertical`
keyword argument into `artist_config`, then merge the caller's keyword
options.  `defaults` stands for the value built by `Config()` (defined in
the non-excerpted `veux.config`), passed in as a parameter. -/
def renderConfig (defaults : CVal) (embedded : Option CVal) (vertical : LVal)
    (opts : CVal) : CVal :=
  let c := defaults
  let c := match embedded with
           | some e => apply_config e c
           | none => c
  let c := setIn2 c "artist_config" "vertical" (.leaf vertical)
  apply_config opts c

/-! ### Structural lemmas about sections and `merge` -/

theorem keysMem_append (k : String) (a b : Entries) :
    keysMem k (a ++ b) = (keysMem k a || keysMem k b) := by
  induction a with
  | nil => simp [keysMem]
  | cons e rest ih =>
      obtain ⟨k', v⟩ := e
      simp [keysMem, ih, Bool.or_assoc]

theorem lookupE_append (k : String) (a b : Entries) :
    lookupE k (a ++ b) = ((lookupE k a).elim (lookupE k b) some) := by
  induction a with
  | nil => simp [lookupE]
  | cons e rest ih =>
      obtain ⟨k', v⟩ := e
      by_cases h : k' = k <;> simp [lookupE, h, ih]

theorem lookupE_eq_none_iff (k : String) (s : Entries) :
    lookupE k s = none ↔ keysMem k s = false := by
  induction s with
  | nil => simp [lookupE, keysMem]
  | cons e rest ih =>
      obtain ⟨k', v⟩ := e
      by_cases h : k' = k <;> simp [lookupE, keysMem, h, ih]

theorem sizeOf_of_mem {k : String} {v : CVal} {s : Entries}
    (h : (k, v) ∈ s) : sizeOf v < sizeOf s := by
  have h1 : sizeOf (k, v) < sizeOf s := List.sizeOf_lt_of_mem h
  simp only [Prod.mk.sizeOf_spec] at h1
  omega

theorem mem_of_lookupE {k : String} {v : CVal} {s : Entries}
    (h : lookupE k s = some v) : (k, v) ∈ s := by
  induction s with
  | nil => simp [lookupE] at h
  | cons e rest ih =>
      obtain ⟨k', v'⟩ := e
      by_cases hk : k' = k
      · rw [lookupE, if_pos hk] at h
        subst hk
        injection h with h
        subst h
        exact List.mem_cons_self _ _
      · rw [lookupE, if_neg hk] at h
        exact List.mem_cons_of_mem _ (ih h)

theorem keysMem_of_mem {k : String} {v : CVal} {s : Entries}
    (h : (k, v) ∈ s) : keysMem k s = true := by
  induction s with
  | nil => cases h
  | cons e rest ih =>
      obtain ⟨k', v'⟩ := e
      rcases List.mem_cons.1 h with he | h2
      · injection he with he1 he2
        simp [keysMem, he1]
      · simp [keysMem, ih h2]

theorem lookupE_of_mem {k : String} {v : CVal} {s : Entries}
    (hwf : WFe s = true) (h : (k, v) ∈ s) : lookupE k s = some v := by
  induction s with
  | nil => cases h
  | cons e rest ih =>
      obtain ⟨k', v'⟩ := e
      rw [WFe] at hwf
      simp only [Bool.and_eq_true, Bool.not_eq_true'] at hwf
      obtain ⟨⟨hk, -⟩, hr⟩ := hwf
      rcases List.mem_cons.1 h with he | h
      · injection he with he1 he2
        subst he1; subst he2
        simp [lookupE]
      · have hne : ¬ k' = k := by
          rintro rfl
          rw [keysMem_of_mem h] at hk
          cases hk
        rw [lookupE, if_neg hne]
        exact ih hr h

theorem WFv_of_mem {k : String} {v : CVal} {s : Entries}
    (hwf : WFe s = true) (h : (k, v) ∈ s) : WFv v = true := by
  induction s with
  | nil => cases h
  | cons e rest ih =>
      obtain ⟨k', v'⟩ := e
      rw [WFe] at hwf
      simp only [Bool.and_eq_true, Bool.not_eq_true'] at hwf
      obtain ⟨⟨-, hv⟩, hr⟩ := hwf
      rcases List.mem_cons.1 h with he | h
      · injection he with he1 he2
        subst he2
        exact hv
      · exact ih hr h

theorem mem_filterNew {k : String} {v : CVal} {d s : Entries}
    (h : (k, v) ∈ filterNew d s) : (k, v) ∈ s := by
  induction s with
  | nil => cases h
  | cons e rest ih =>
      obtain ⟨k', v'⟩ := e
      rw [filterNew] at h
      by_cases hm : keysMem k' d
      · rw [if_pos hm] at h
        exact List.mem_cons_of_mem _ (ih h)
      · rw [if_neg hm] at h
        rcases List.mem_cons.1 h with he | h
        · rw [he]; exact List.mem_cons_self _ _
        · exact List.mem_cons_of_mem _ (ih h)

theorem keysMem_filterNew (k : String) (d s : Entries) :
    keysMem k (filterNew d s) = (!keysMem k d && keysMem k s) := by
  induction s with
  | nil => simp [filterNew, keysMem]
  | cons e rest ih =>
      obtain ⟨k', v⟩ := e
      rw [filterNew]
      by_cases hm : keysMem k' d
      · rw [if_pos hm, ih]
        by_cases h : k' = k
        · subst h; simp [keysMem, hm]
        · simp [keysMem, h]
      · rw [if_neg hm]
        by_cases h : k' = k
        · subst h; simp [keysMem, hm]
        · simp [keysMem, h, ih]

theorem lookupE_filterNew (k : String) (d s : Entries) :
    lookupE k (filterNew d s) = if keysMem k d then none else lookupE k s := by
  induction s with
  | nil => simp [filterNew, lookupE]
  | cons e rest ih =>
      obtain ⟨k', v⟩ := e
      rw [filterNew]
      by_cases hm : keysMem k' d
      · rw [if_pos hm, ih]
        by_cases h : k' = k
        · subst h; simp [lookupE, hm]
        · simp [lookupE, h]
      · rw [if_neg hm]
        by_cases h : k' = k
        · subst h; simp [lookupE, hm]
        · simp [lookupE, h, ih]

theorem keysMem_mergeE (k : String) (d s : Entries) :
    keysMem k (mergeE d s) = keysMem k d := by
  induction d with
  | nil => simp [mergeE]
  | cons e rest ih =>
      obtain ⟨k', v⟩ := e
      simp [mergeE, keysMem, ih]

theorem lookupE_mergeE (k : String) (d s : Entries) :
    lookupE k (mergeE d s) = (lookupE k d).map (fun v =>
      match lookupE k s with
      | some sv => merge v sv
      | none => v) := by
  induction d with
  | nil => simp [mergeE, lookupE]
  | cons e rest ih =>
      obtain ⟨k', v⟩ := e
      by_cases h : k' = k
      · subst h; simp [mergeE, lookupE]
      · simp [mergeE, lookupE, h, ih]

theorem mergeE_append (a b s : Entries) :
    mergeE (a ++ b) s = mergeE a s ++ mergeE b s := by
  induction a with
  | nil => simp [mergeE]
  | cons e rest ih =>
      obtain ⟨k, v⟩ := e
      simp [mergeE, ih]

theorem mem_mergeE {k : String} {w : CVal} {d s : Entries}
    (h : (k, w) ∈ mergeE d s) :
    ∃ v, (k, v) ∈ d ∧
      w = (match lookupE k s with | some sv => merge v sv | none => v) := by
  induction d with
  | nil => simp [mergeE] at h
  | cons e rest ih =>
      obtain ⟨k', v'⟩ := e
      rw [mergeE] at h
      rcases List.mem_cons.1 h with he | h
      · injection he with he1 he2
        subst he1
        exact ⟨v', List.mem_cons_self _ _, he2⟩
      · obtain ⟨v, hv, hw⟩ := ih h
        exact ⟨v, List.mem_cons_of_mem _ hv, hw⟩

theorem mergeE_eq_self {s : Entries} (L : Entries)
    (h : ∀ k v, (k, v) ∈ L →
      (match lookupE k s with | some sv => merge v sv | none => v) = v) :
    mergeE L s = L := by
  induction L with
  | nil => rfl
  | cons e rest ih =>
      obtain ⟨k, v⟩ := e
      have h1 := h k v (List.mem_cons_self _ _)
      have h2 := ih (fun k' v' hm => h k' v' (List.mem_cons_of_mem _ hm))
      simp [mergeE, h1, h2]

theorem filterNew_eq_nil {M s : Entries}
    (h : ∀ k, keysMem k s = true → keysMem k M = true) :
    filterNew M s = [] := by
  induction s with
  | nil => rfl
  | cons e rest ih =>
      obtain ⟨k, v⟩ := e
      have hk : keysMem k M = true := h k (by simp [keysMem])
      rw [filterNew, if_pos hk]
      exact ih (fun k' hk' => h k' (by simp [keysMem, hk']))

theorem merge_leaf_left (l : LVal) (s : CVal) : merge (.leaf l) s = s := by
  cases s <;> rfl

/-- Idempotence of the merge, by strong induction on the size of the
well-formed source: merging the same source twice is the same as merging
it once. -/
theorem merge_idem_aux : ∀ (n : ℕ) (S : CVal), sizeOf S ≤ n → WFv S = true →
    ∀ D : CVal, merge (merge D S) S = merge D S := by
  intro n
  induction n with
  | zero =>
      intro S hsz
      exfalso
      cases S <;> simp at hsz
  | succ n ih =>
      intro S hsz hWF D
      cases S with
      | leaf v => cases D <;> simp [merge]
      | sec s =>
          rw [WFv] at hWF
          have hval : ∀ (v : CVal), (∃ k, (k, v) ∈ s) →
              ∀ D', merge (merge D' v) v = merge D' v := by
            rintro v ⟨k, hk⟩ D'
            have hlt : sizeOf v < sizeOf s := sizeOf_of_mem hk
            have hsec : sizeOf (CVal.sec s) = 1 + sizeOf s := by simp
            exact ih v (by omega) (WFv_of_mem hWF hk) D'
          have hself : ∀ (k : String) (v : CVal), (k, v) ∈ s →
              merge v v = v := by
            intro k v hk
            have h := hval v ⟨k, hk⟩ (.leaf (.num 0))
            rwa [merge_leaf_left] at h
          have hcondS : ∀ k v, (k, v) ∈ s →
              (match lookupE k s with | some sv => merge v sv | none => v) = v := by
            intro k v hk
            rw [lookupE_of_mem hWF hk]
            exact hself k v hk
          cases D with
          | leaf l =>
              rw [merge_leaf_left]
              show CVal.sec (mergeE s s ++ filterNew s s) = CVal.sec s
              rw [mergeE_eq_self s hcondS, filterNew_eq_nil (fun _ h => h),
                List.append_nil]
          | sec d =>
              have hM1 : mergeE (mergeE d s) s = mergeE d s := by
                apply mergeE_eq_self
                intro k w hw
                obtain ⟨v, hv, hweq⟩ := mem_mergeE hw
                cases hsv : lookupE k s with
                | none => rfl
                | some sv =>
                    rw [hsv] at hweq
                    show merge w sv = w
                    subst hweq
                    exact hval sv ⟨k, mem_of_lookupE hsv⟩ v
              have hM2 : mergeE (filterNew d s) s = filterNew d s := by
                apply mergeE_eq_self
                intro k w hw
                exact hcondS k w (mem_filterNew hw)
              have hkeys : ∀ k, keysMem k s = true →
                  keysMem k (mergeE d s ++ filterNew d s) = true := by
                intro k hk
                rw [keysMem_append, keysMem_mergeE, keysMem_filterNew]
                cases hkd : keysMem k d <;> simp [hk]
              show CVal.sec (mergeE (mergeE d s ++ filterNew d s) s ++
                  filterNew (mergeE d s ++ filterNew d s) s) =
                CVal.sec (mergeE d s ++ filterNew d s)
              rw [mergeE_append, hM1, hM2, filterNew_eq_nil hkeys,
                List.append_nil]

theorem getPath_none_of_untouched : ∀ (p : List String) (S : CVal),
    Untouched S p → getPath S p = none := by
  intro p
  induction p with
  | nil => intro S h; simp [Untouched] at h
  | cons k rest ih =>
      intro S h
      cases S with
      | leaf l => rfl
      | sec es =>
          cases hl : lookupE k es with
          | none => rw [getPath, hl]
          | some v =>
              rw [getPath, hl]
              rw [Untouched, hl] at h
              exact ih v h

theorem getPath_merge_of_src : ∀ (p : List String) (S D : CVal) (v : LVal),
    getPath S p = some (.leaf v) → getPath (merge D S) p = some (.leaf v) := by
  intro p
  induction p with
  | nil =>
      intro S D v h
      rw [getPath] at h
      injection h with h
      subst h
      cases D <;> rfl
  | cons k rest ih =>
      intro S D v h
      cases S with
      | leaf l => simp [getPath] at h
      | sec es =>
          rw [getPath] at h
          cases hl : lookupE k es with
          | none => rw [hl] at h; cases h
          | some sv =>
              rw [hl] at h
              cases D with
              | leaf l =>
                  rw [merge_leaf_left, getPath, hl]
                  exact h
              | sec d =>
                  show getPath (.sec (mergeE d es ++ filterNew d es)) (k :: rest) =
                    some (.leaf v)
                  rw [getPath, lookupE_append, lookupE_mergeE, lookupE_filterNew]
                  cases hd : lookupE k d with
                  | some vd =>
                      simp only [Option.map_some', Option.elim, hl]
                      exact ih sv vd v h
                  | none =>
                      have hkm : keysMem k d = false := (lookupE_eq_none_iff k d).1 hd
                      simp only [Option.map_none', Option.elim, hkm, if_false, hl]
                      exact h

theorem getPath_merge_of_untouched : ∀ (p : List String) (S D : CVal),
    Untouched S p → getPath (merge D S) p = getPath D p := by
  intro p
  induction p with
  | nil => intro S D h; simp [Untouched] at h
  | cons k rest ih =>
      intro S D h
      cases S with
      | leaf l => simp [Untouched] at h
      | sec es =>
          cases hl : lookupE k es with
          | none =>
              cases D with
              | leaf d =>
                  rw [merge_leaf_left]
                  simp [getPath, hl]
              | sec d =>
                  show getPath (.sec (mergeE d es ++ filterNew d es)) (k :: rest) =
                    getPath (.sec d) (k :: rest)
                  rw [getPath, getPath, lookupE_append, lookupE_mergeE,
                    lookupE_filterNew]
                  cases hd : lookupE k d with
                  | some vd =>
                      simp only [Option.map_some', Option.elim, hl]
                  | none =>
                      have hkm : keysMem k d = false := (lookupE_eq_none_iff k d).1 hd
                      simp [Option.elim, hkm, hl]
          | some sv =>
              rw [Untouched, hl] at h
              cases D with
              | leaf d =>
                  rw [merge_leaf_left]
                  have hnone := getPath_none_of_untouched rest sv h
                  simp [getPath, hl, hnone]
              | sec d =>
                  show getPath (.sec (mergeE d es ++ filterNew d es)) (k :: rest) =
                    getPath (.sec d) (k :: rest)
                  rw [getPath, getPath, lookupE_append, lookupE_mergeE,
                    lookupE_filterNew]
                  cases hd : lookupE k d with
                  | some vd =>
                      simp only [Option.map_some', Option.elim, hl]
                      exact ih sv vd h
                  | none =>
                      have hkm : keysMem k d = false := (lookupE_eq_none_iff k d).1 hd
                      have hnone := getPath_none_of_untouched rest sv h
                      simp [Option.elim, hkm, hl, hnone]

/-! ### Claim C1 and C4: configuration layering and merge idempotence -/

/-- Defaults of the end-to-end example: `Config()` provides the (here empty)
`artist_config` section, and the `vertical` keyword argument's default `2`
supplies `artist:{vertical:2}`. -/
def exampleDefaults : CVal := .sec [("artist_config", .sec [])]

/-- Caller overrides of the end-to-end example: `{artist:{scale:1.5}}`,
passed through `**opts`. -/
def exampleOverrides : CVal :=
  .sec [("artist_config", .sec [("scale", .leaf (.num (3/2)))])]

/-- C1: each render invocation builds its settings by layering the sources
defaults, then model-embedded config, then caller overrides
(`renderConfig`); at each layering step the later source wins on every key
it sets while untouched keys of the earlier layers are retained; in
particular, with defaults `{artist:{vertical:2}}` (the `vertical` keyword
default written into the `artist_config` section `Config()` provides),
embedded config `{}` and overrides `{artist:{scale:1.5}}`, the merged
artist section is `{vertical:2, scale:1.5}`. -/
theorem render_config_layering :
    (∀ (D S : CVal) (p : List String) (v : LVal),
        getPath S p = some (.leaf v) →
        getPath (apply_config S D) p = some (.leaf v)) ∧
    (∀ (D S : CVal) (p : List String),
        Untouched S p → getPath (apply_config S D) p = getPath D p) ∧
    getPath (renderConfig exampleDefaults (some (.sec [])) (.num 2)
        exampleOverrides) ["artist_config"] =
      some (.sec [("vertical", .leaf (.num 2)),
                  ("scale", .leaf (.num (3/2)))]) :=
  ⟨fun D S p v h => getPath_merge_of_src p S D v h,
   fun D S p h => getPath_merge_of_untouched p S D h,
   by rfl⟩

/-- Witness for C1 at concrete inputs: the override layer's `scale` leaf
wins in the merged configuration, and a merge whose source leaves
`artist_config` untouched retains the defaults there. -/
theorem render_config_layering_witness :
    getPath (apply_config exampleOverrides exampleDefaults)
        ["artist_config", "scale"] = some (.leaf (.num (3/2))) ∧
    getPath (apply_config (.sec [("state_config", .sec [])]) exampleDefaults)
        ["artist_config"] = getPath exampleDefaults ["artist_config"] :=
  ⟨render_config_layering.1 exampleDefaults exampleOverrides
      ["artist_config", "scale"] (.num (3/2)) (by rfl),
   render_config_layering.2.1 exampleDefaults (.sec [("state_config", .sec [])])
      ["artist_config"] (by simp [Untouched, lookupE])⟩

/-- C4: the configuration merge is idempotent: for every destination `D`
and every well-formed source `S` (well-formed meaning duplicate-key free,
which is exactly Python-`dict` representability),
`merge (merge D S) S = merge D S`; stated through `apply_config`, whose
argument order at the call sites in `render` is `(source, destination)`. -/
theorem apply_config_idempotent (D S : CVal) (hS : WFv S = true) :
    apply_config S (apply_config S D) = apply_config S D :=
  merge_idem_aux (sizeOf S) S le_rfl hS D

/-- Witness for C4 at concrete inputs. -/
theorem apply_config_idempotent_witness :
    WFv exampleOverrides = true ∧
    apply_config exampleOverrides
        (apply_config exampleOverrides exampleDefaults) =
      apply_config exampleOverrides exampleDefaults :=
  ⟨by rfl, apply_config_idempotent exampleDefaults exampleOverrides (by rfl)⟩

/-! ### The visibility resolver (spec §4.2) and claim C3 -/

/-- A visibility action: `"show"` or `"hide"` as passed to `sketch_show`. -/
inductive VAction where
  | vshow
  | vhide
  deriving DecidableEq, Repr

/-- The logical complement of an action (show→hidden, hide→shown). -/
def VAction.compl : VAction → VAction
  | .vshow => .vhide
  | .vhide => .vshow

/-- A visibility key: a sketch name with an optional attribute, written
`<sketch>` or `<sketch>:<attribute>` in the string form. -/
structure VKey where
  sketch : String
  attr : Option String
  deriving DecidableEq, Repr

/-- Split a character list at the first occurrence of `c`: the part before
it, and the part after it when it occurs. -/
def breakAtChar (c : Char) : List Char → List Char × Option (List Char)
  | [] => ([], none)
  | x :: rest =>
      if x = c then ([], some rest)
      else
        let r := breakAtChar c rest
        (x :: r.1, r.2)

/-- Modelled from the spec: parse a directive key `<sketch>` or
`<sketch>:<attribute-path>` at the first `":"` (the orchestrator builds
these keys with f-strings such as `f"reference:{arg}"`). -/
def parseKey (s : String) : VKey :=
  let r := breakAtChar ':' s.data
  ⟨String.mk r.1, r.2.map String.mk⟩

/-- The per-key visibility flags stored in the artist section: an entry
maps a key to its explicit tri-state value (absent = unset). -/
abbrev VState : Type := List (VKey × VAction)

/-- Explicit flag of a key, if set. -/
def lookupFlag : VState → VKey → Option VAction
  | [], _ => none
  | (k', a) :: rest, k => if k' = k then some a else lookupFlag rest k

/-- Set the flag of a key (update-or-append). -/
def setFlag : VState → VKey → VAction → VState
  | [], k, a => [(k, a)]
  | (k', a') :: rest, k, a =>
      if k' = k then (k', a) :: rest else (k', a') :: setFlag rest k a

/-- Modelled from the spec: a key "currently has any explicit or default
state" when its own flag is set, or when it is an attribute key whose
sketch-level flag is set (the unset attribute inherits the sketch default). -/
def hasState (st : VState) (k : VKey) : Bool :=
  (lookupFlag st k).isSome ||
    (k.attr.isSome && (lookupFlag st ⟨k.sketch, none⟩).isSome)

/-- Modelled from the spec: the sibling keys of a visibility key are the
other attribute keys under the same sketch, drawn from the universe
`attrs` of attribute names per sketch. -/
def siblings (attrs : String → List String) (k : VKey) : List VKey :=
  match k.attr with
  | some a =>
      ((attrs k.sketch).filter (fun b => b ≠ a)).map
        (fun b => ⟨k.sketch, some b⟩)
  | none => (attrs k.sketch).map (fun b => ⟨k.sketch, some b⟩)

/-- Modelled from the spec: `veux.parser.sketch_show` (VisibilityResolver,
§4.2) is not part of the excerpt.  Steps: parse the key; set the exact
key's flag to `act`; if `exclusive`, set every sibling that currently has
explicit or default state and is not in `preserve` to the complement of
`act`; finally add the key to `preserve` (exclusive calls only — a
non-exclusive call performs only the first two steps).  Returns the updated
flag state and preserve set (both are mutated in place in Python). -/
def sketch_show (attrs : String → List String) (st : VState) (key : String)
    (act : VAction) (exclusive : Bool) (preserve : List VKey) :
    VState × List VKey :=
  let k := parseKey key
  let st1 := setFlag st k act
  let st2 :=
    if exclusive then
      (siblings attrs k).foldl
        (fun acc sib =>
          if sib ∈ preserve then acc
          else if hasState st1 sib then setFlag acc sib act.compl else acc)
        st1
    else st1
  (st2, if exclusive then k :: preserve else preserve)

/-- The attribute universe of the C3 scenario: sketch `reference` has the
sibling attributes `node`, `element`, `fiber`. -/
def refAttrs : String → List String :=
  fun sk => if sk = "reference" then ["node", "element", "fiber"] else []

/-- C3: for sketch `reference` with siblings `{node, element, fiber}`, the
sequence `resolve(cfg,"reference",show)` (non-exclusive), then
`resolve(cfg,"reference:node",show,exclusive,P)`, then
`resolve(cfg,"reference:element",show,exclusive,P)` with the preserve set
`P` shared, ends with node=show, element=show, fiber=hide. -/
theorem reference_exclusive_preserve_scenario :
    (let r1 := sketch_show refAttrs [] "reference" .vshow false []
     let r2 := sketch_show refAttrs r1.1 "reference:node" .vshow true []
     let r3 := sketch_show refAttrs r2.1 "reference:element" .vshow true r2.2
     lookupFlag r3.1 ⟨"reference", some "node"⟩ = some .vshow ∧
     lookupFlag r3.1 ⟨"reference", some "element"⟩ = some .vshow ∧
     lookupFlag r3.1 ⟨"reference", some "fiber"⟩ = some .vhide) :=
  ⟨by rfl, by rfl, by rfl⟩

/-! ### The directive phase of `render` (claims C2, C8, C9) -/

/-- One `sketch_show` invocation issued by `render`, as a record: the key
string, the action, whether it is exclusive, and the creation index of the
`preserve` set passed to it (`none` for the single call that passes no
preserve set). -/
structure SketchCall where
  key : String
  action : VAction
  exclusive : Bool
  batch : Option ℕ
  deriving DecidableEq, Repr

/-- The effective reference list (source lines 193–194): the `show`
argument is used as the reference list exactly when both `reference` and
`displaced` are absent. -/
def effectiveRef (showL refL dispL : Option (List String)) :
    Option (List String) :=
  match showL, refL, dispL with
  | some s, none, none => some s
  | _, _, _ => refL

/-- The user-directive phase of `render` (source lines 193–210): `show`
becomes the reference list when both `reference` and `displaced` are
absent; then, for each non-`None` list among reference, displaced and
hide, a fresh `preserve = set()` is created and the list is translated to
`sketch_show` calls.  Returns the issued calls in order together with the
number of `set()` creations. -/
def renderDirectives (showL refL dispL hideL : Option (List String)) :
    List SketchCall × ℕ :=
  let refL := effectiveRef showL refL dispL
  let c1 : List SketchCall × ℕ :=
    match refL with
    | some l =>
        (⟨"reference", .vshow, false, none⟩ ::
          l.map (fun a => ⟨"reference:" ++ a, .vshow, true, some 0⟩), 1)
    | none => ([], 0)
  let c2 : List SketchCall × ℕ :=
    match dispL with
    | some l =>
        (l.map (fun a => ⟨"displaced:" ++ a, .vshow, true, some c1.2⟩), 1)
    | none => ([], 0)
  let c3 : List SketchCall × ℕ :=
    match hideL with
    | some l =>
        (l.map (fun a => ⟨"reference:" ++ a, .vhide, true,
          some (c1.2 + c2.2)⟩), 1)
    | none => ([], 0)
  (c1.1 ++ c2.1 ++ c3.1, c1.2 + c2.2 + c3.2)

/-- C2 counterexample: a render call with `reference=["node"]` and
`hide=["element"]` creates two preserve sets, not one, and its hide
directive runs against the second set (index 1), not the set threaded
through the reference directives (index 0). -/
theorem render_preserve_single_set_counterexample :
    (renderDirectives none (some ["node"]) none (some ["element"])).2 = 2 ∧
    ¬ (renderDirectives none (some ["node"]) none (some ["element"])).2 = 1 ∧
    (renderDirectives none (some ["node"]) none (some ["element"])).1 =
      [⟨"reference", .vshow, false, none⟩,
       ⟨"reference:node", .vshow, true, some 0⟩,
       ⟨"reference:element", .vhide, true, some 1⟩] :=
  ⟨rfl, by decide, by rfl⟩

/-- C2 (amended): each render invocation creates one fresh `preserve` set
per non-`None` directive list (effective reference, displaced, hide); the
resolver calls of one list all share that list's set — the exclusive
reference calls all carry set 0, the displaced calls all carry the next
index, the hide calls the one after — and every set index a call carries
was created in this same invocation (it is below the invocation's creation
count, so no set outlives the call). -/
theorem preserve_set_per_directive_list (sh rf dp hd : Option (List String)) :
    (renderDirectives sh rf dp hd).2 =
      (if effectiveRef sh rf dp = none then 0 else 1) +
      (if dp = none then 0 else 1) + (if hd = none then 0 else 1) ∧
    (∀ c ∈ (renderDirectives sh rf dp hd).1, ∀ b, c.batch = some b →
        b < (renderDirectives sh rf dp hd).2) ∧
    (∀ l, effectiveRef sh rf dp = some l → ∀ a ∈ l,
        (⟨"reference:" ++ a, .vshow, true, some 0⟩ : SketchCall) ∈
          (renderDirectives sh rf dp hd).1) ∧
    (∀ l, dp = some l → ∀ a ∈ l,
        (⟨"displaced:" ++ a, .vshow, true,
            some (if effectiveRef sh rf dp = none then 0 else 1)⟩ : SketchCall) ∈
          (renderDirectives sh rf dp hd).1) ∧
    (∀ l, hd = some l → ∀ a ∈ l,
        (⟨"reference:" ++ a, .vhide, true,
            some ((if effectiveRef sh rf dp = none then 0 else 1) +
                  (if dp = none then 0 else 1))⟩ : SketchCall) ∈
          (renderDirectives sh rf dp hd).1) := by
  rcases herf : effectiveRef sh rf dp with _ | l <;>
    rcases dp with _ | dl <;> rcases hd with _ | hl <;>
    refine ⟨?_, ?_, ?_, ?_, ?_⟩ <;>
    simp [renderDirectives, herf, List.mem_append, List.mem_map] <;>
    try exact fun a ha => ⟨a, ha, rfl⟩
  · rintro c (⟨a, ha, rfl⟩ | ⟨a, ha, rfl⟩) b hb <;> simp_all <;> omega
  · rintro c (⟨a, ha, rfl⟩ | ⟨a, ha, rfl⟩) b hb <;> simp_all <;> omega
  · rintro c (⟨a, ha, rfl⟩ | ⟨a, ha, rfl⟩) b hb <;> simp_all <;> omega
  · rintro c (⟨a, ha, rfl⟩ | ⟨a, ha, rfl⟩ | ⟨a, ha, rfl⟩) b hb <;>
      simp_all <;> omega

/-- Witness for C2 (amended): with `reference=["node"]` and no other lists,
the exclusive reference directive for `node` carries preserve set 0. -/
theorem preserve_set_per_directive_list_witness :
    (⟨"reference:" ++ "node", .vshow, true, some 0⟩ : SketchCall) ∈
      (renderDirectives none (some ["node"]) none none).1 :=
  (preserve_set_per_directive_list none (some ["node"]) none none).2.2.1
    ["node"] rfl "node" (by simp)

/-- C8: every entry `a` of the hide list is issued as an exclusive hide
directive for `"reference:a"`, and conversely every hide-action directive
the orchestrator issues is exclusive and keyed under the `reference`
sketch (never `displaced`) with its attribute drawn from the hide list. -/
theorem hide_directives_reference_sketch (sh rf dp hd : Option (List String)) :
    (∀ hl, hd = some hl → ∀ a ∈ hl, ∃ b,
        (⟨"reference:" ++ a, .vhide, true, some b⟩ : SketchCall) ∈
          (renderDirectives sh rf dp hd).1) ∧
    (∀ c ∈ (renderDirectives sh rf dp hd).1, c.action = .vhide →
        c.exclusive = true ∧
        ∃ a, a ∈ hd.getD [] ∧ c.key = "reference:" ++ a) := by
  rcases herf : effectiveRef sh rf dp with _ | l <;>
    rcases dp with _ | dl <;> rcases hd with _ | hl <;>
    refine ⟨?_, ?_⟩ <;>
    simp [renderDirectives, herf, List.mem_append, List.mem_map] <;>
    try first
      | exact fun a ha => ⟨a, ha, rfl⟩
      | exact fun a ha => ⟨_, a, ha, rfl, rfl⟩
  · rintro c (⟨a, ha, rfl⟩ | ⟨a, ha, rfl⟩) hact <;> simp_all <;> exact ⟨a, ha, rfl⟩
  · rintro c (⟨a, ha, rfl⟩ | ⟨a, ha, rfl⟩) hact <;> simp_all <;> exact ⟨a, ha, rfl⟩
  · rintro c (⟨a, ha, rfl⟩ | ⟨a, ha, rfl⟩) <;> simp
  · rintro c (⟨a, ha, rfl⟩ | ⟨a, ha, rfl⟩ | ⟨a, ha, rfl⟩) hact <;>
      simp_all <;> exact ⟨a, ha, rfl⟩

/-- Witness for C8: with `hide=["element"]`, an exclusive hide directive
for `reference:element` is issued. -/
theorem hide_directives_reference_sketch_witness :
    ∃ b, (⟨"reference:" ++ "element", .vhide, true, some b⟩ : SketchCall) ∈
      (renderDirectives none none none (some ["element"])).1 :=
  (hide_directives_reference_sketch none none none (some ["element"])).1
    ["element"] rfl "element" (by simp)

/-- C9: a non-`None` `show` argument with both `reference` and `displaced`
absent is treated exactly as the reference list (identical directives and
preserve sets); when `reference` or `displaced` is supplied, `show` has no
effect at all. -/
theorem show_defaults_to_reference :
    (∀ (l : List String) (hd : Option (List String)),
        renderDirectives (some l) none none hd =
          renderDirectives none (some l) none hd) ∧
    (∀ (sh rf dp hd : Option (List String)), rf ≠ none ∨ dp ≠ none →
        renderDirectives sh rf dp hd = renderDirectives none rf dp hd) := by
  constructor
  · intro l hd; rfl
  · rintro sh rf dp hd (h | h) <;>
      rcases rf with _ | r <;> rcases dp with _ | d <;> rcases sh with _ | s <;>
      first
        | rfl
        | simp_all

/-- Witness for C9: `show=["node"]` alone acts as `reference=["node"]`,
and `show` is ignored when `reference` is given. -/
theorem show_defaults_to_reference_witness :
    renderDirectives (some ["node"]) none none none =
      renderDirectives none (some ["node"]) none none ∧
    renderDirectives (some ["node"]) (some ["element"]) none none =
      renderDirectives none (some ["element"]) none none :=
  ⟨show_defaults_to_reference.1 ["node"] none,
   show_defaults_to_reference.2 (some ["node"]) (some ["element"]) none none
     (Or.inl (by simp))⟩

/-! ### Canvas selection, serving and the render guard (C5, C6, C7, C10) -/

/-- The errors this module raises: `RenderError` (from `veux.errors`) and
Python's built-in `ValueError`, each carrying its message. -/
inductive RErr where
  | renderError (msg : String)
  | valueError (msg : String)
  deriving DecidableEq, Repr

/-- The four registered drawing backends of `_create_canvas`. -/
inductive CanvasBackend where
  | matplotlib
  | plotly
  | gltf
  | trimesh
  deriving DecidableEq, Repr

/-- A canvas object: either one constructed by a registered backend, or an
arbitrary non-string object handed in by the caller. -/
inductive CanvasObj where
  | builtin (b : CanvasBackend)
  | external (id : ℕ)
  deriving DecidableEq, Repr

/-- The canvas argument of `_create_canvas`: `None`, a string identifier,
or an already-constructed (non-string) object. -/
inductive CanvasArg where
  | none_
  | name (s : String)
  | obj (o : CanvasObj)
  deriving DecidableEq, Repr

/-- `_create_canvas` (source lines 58–77): a `None` name defaults to
`"gltf"` (and then constructs the gltf backend); a non-string argument is
returned unchanged without consulting the registry; the identifiers
`matplotlib`, `plotly`, `gltf`, `trimesh` construct their backend canvas;
any other string raises `ValueError("Unknown canvas name " + str(name))`. -/
def _create_canvas : CanvasArg → Except RErr CanvasObj
  | .none_ => .ok (.builtin .gltf)
  | .obj o => .ok o
  | .name s =>
      if s = "matplotlib" then .ok (.builtin .matplotlib)
      else if s = "plotly" then .ok (.builtin .plotly)
      else if s = "gltf" then .ok (.builtin .gltf)
      else if s = "trimesh" then .ok (.builtin .trimesh)
      else .error (.valueError ("Unknown canvas name " ++ s))

/-- C6: a string canvas identifier outside the registry is rejected with a
`ValueError` whose message names the offending identifier — in particular
`"foo"` — while the four known identifiers are accepted. -/
theorem unknown_backend_rejected :
    (∀ s : String, s ≠ "matplotlib" → s ≠ "plotly" → s ≠ "gltf" →
        s ≠ "trimesh" →
        _create_canvas (.name s) =
          .error (.valueError ("Unknown canvas name " ++ s))) ∧
    _create_canvas (.name "foo") =
      .error (.valueError "Unknown canvas name foo") ∧
    _create_canvas (.name "gltf") = .ok (.builtin .gltf) ∧
    _create_canvas (.name "plotly") = .ok (.builtin .plotly) ∧
    _create_canvas (.name "matplotlib") = .ok (.builtin .matplotlib) ∧
    _create_canvas (.name "trimesh") = .ok (.builtin .trimesh) :=
  ⟨fun s h1 h2 h3 h4 => by
      simp only [_create_canvas, if_neg h1, if_neg h2, if_neg h3, if_neg h4],
   by rfl, by rfl, by rfl, by rfl, by rfl⟩

/-- Witness for C6 at the identifier `"foo"`. -/
theorem unknown_backend_rejected_witness :
    _create_canvas (.name "foo") =
      .error (.valueError ("Unknown canvas name " ++ "foo")) :=
  unknown_backend_rejected.1 "foo" (by decide) (by decide) (by decide)
    (by decide)

/-- C10: a non-string canvas argument is returned unchanged (no registry
lookup, no error), and a `None` argument behaves exactly like the default
identifier `"gltf"`. -/
theorem non_string_canvas_passthrough :
    (∀ o : CanvasObj, _create_canvas (.obj o) = .ok o) ∧
    _create_canvas .none_ = _create_canvas (.name "gltf") :=
  ⟨fun o => rfl, by rfl⟩

/-- The capabilities probed on a canvas by `serve`: presence of the
`to_glb`, `to_html` and `show` attributes. -/
structure CanvasCaps where
  to_glb : Bool
  to_html : Bool
  showAttr : Bool
  deriving DecidableEq, Repr

/-- The argument of `serve`: an artist (an object with a `canvas`
attribute) or a bare canvas. -/
inductive ServeThing where
  | artist (canvas : CanvasCaps)
  | canvas (c : CanvasCaps)
  deriving DecidableEq, Repr

/-- The canvas `serve` operates on: `thing.canvas` when the attribute
exists, else `thing` itself. -/
def ServeThing.capsOf : ServeThing → CanvasCaps
  | .artist c => c
  | .canvas c => c

/-- What a successful `serve` call did: ran the glb server, ran the html
server, or called `canvas.show()`. -/
inductive ServeOutcome where
  | glbServer
  | htmlServer
  | shown
  deriving DecidableEq, Repr

/-- `serve` (source lines 28–55): serve a glb payload when the canvas has
`to_glb`; else an html payload when it has `to_html`; else call
`canvas.show()` when it has `show`; else raise
`ValueError("Cannot serve artist")`. -/
def serve (t : ServeThing) : Except RErr ServeOutcome :=
  let c := t.capsOf
  if c.to_glb then .ok .glbServer
  else if c.to_html then .ok .htmlServer
  else if c.showAttr then .ok .shown
  else .error (.valueError "Cannot serve artist")

/-- C7 counterexample: a canvas exposing neither `to_glb` nor `to_html`
but exposing `show` does not raise — `serve` calls `canvas.show()` — so
"raises iff neither export capability is present" fails in the
only-if-absent direction. -/
theorem serve_show_only_counterexample :
    (ServeThing.canvas ⟨false, false, true⟩).capsOf.to_glb = false ∧
    (ServeThing.canvas ⟨false, false, true⟩).capsOf.to_html = false ∧
    serve (.canvas ⟨false, false, true⟩) = .ok .shown ∧
    ¬ serve (.canvas ⟨false, false, true⟩) =
        .error (.valueError "Cannot serve artist") :=
  ⟨rfl, rfl, rfl, fun h => Except.noConfusion h⟩

/-- C7 (amended): `serve` raises `ValueError("Cannot serve artist")` if
and only if the canvas exposes none of `to_glb`, `to_html`, `show`; when
either export capability is present a local viewer server is started (glb
preferred over html). -/
theorem serve_capability_dispatch (t : ServeThing) :
    (serve t = .error (.valueError "Cannot serve artist") ↔
      t.capsOf.to_glb = false ∧ t.capsOf.to_html = false ∧
        t.capsOf.showAttr = false) ∧
    (t.capsOf.to_glb = true ∨ t.capsOf.to_html = true →
      serve t = .ok .glbServer ∨ serve t = .ok .htmlServer) := by
  rcases t with ⟨g, h, s⟩ | ⟨g, h, s⟩ <;> cases g <;> cases h <;> cases s <;>
    simp [serve, ServeThing.capsOf]

/-- Witness for C7 (amended): a glb-capable canvas starts a viewer. -/
theorem serve_capability_dispatch_witness :
    serve (.canvas ⟨true, false, false⟩) = .ok .glbServer ∨
    serve (.canvas ⟨true, false, false⟩) = .ok .htmlServer :=
  (serve_capability_dispatch (.canvas ⟨true, false, false⟩)).2 (Or.inl rfl)

/-- The model data produced by the `sam_file` dispatch (source lines
165–183), to the depth the claims need: whether it carries a
`"RendererConfiguration"` section and which one. -/
structure ModelData where
  rendererConfig : Option CVal
  deriving Repr

/-- Backend-construction events of one render invocation. -/
inductive REvent where
  | canvasCreated
  | artistCreated
  | drawn
  deriving DecidableEq, Repr

/-- The render orchestrator `render` (source lines 159–250) to the depth
the claims need: the missing-input guard (`raise RenderError("Expected
required argument <sam-file>")` when `sam_file is None`), configuration
set-up (`renderConfig`), the directive phase (`renderDirectives`), canvas
selection (`canvas or config["canvas_config"]["type"]`, falsy arguments
falling back to the configured type) and creation, then artist
construction and drawing.  Returns the backend-construction events that
happened, together with the outcome; an error leaves the event list
empty because it aborts the call before any backend is constructed. -/
def render (samFile : Option ModelData) (canvasArg : CanvasArg)
    (showL refL dispL hideL : Option (List String)) (vertical : LVal)
    (defaults : CVal) (opts : CVal) : List REvent × Except RErr Unit :=
  match samFile with
  | none => ([], .error (.renderError "Expected required argument <sam-file>"))
  | some md =>
      let config := renderConfig defaults md.rendererConfig vertical opts
      let _directives := renderDirectives showL refL dispL hideL
      let sel : CanvasArg :=
        match canvasArg with
        | .none_ =>
            match getPath config ["canvas_config", "type"] with
            | some (.leaf (.str s)) => .name s
            | _ => .none_
        | .name s =>
            if s = "" then
              match getPath config ["canvas_config", "type"] with
              | some (.leaf (.str t)) => .name t
              | _ => .none_
            else .name s
        | x => x
      match _create_canvas sel with
      | .error e => ([], .error e)
      | .ok _ => ([.canvasCreated, .artistCreated, .drawn], .ok ())

/-- C5: invoking `render` with no model source yields
`RenderError("Expected required argument <sam-file>")` — the spec's
MissingInputError — and an empty construction trace: the error is raised
before any backend (canvas or artist) is constructed, whatever the other
arguments are. -/
theorem missing_input_before_backend (canvasArg : CanvasArg)
    (sh rf dp hd : Option (List String)) (vertical : LVal)
    (defaults opts : CVal) :
    render none canvasArg sh rf dp hd vertical defaults opts =
      ([], .error (.renderError "Expected required argument <sam-file>")) :=
  rfl

end Veux
